import Mathlib

/-!
Shallow embedding of the cubie_backend price-derivation pipeline
(`src/solana/market.ts`, `src/solana/constants`, `src/helpers/agent.ts`,
`src/controllers/agent.ts`) and proofs about its specified behavior.

Numbers that the source manipulates as JS floats are modelled as rationals
(`ℚ`); raw lamport / token amounts are naturals.  External collaborators
(the RPC connection, the Raydium registry, the program-derived-address
routine) are passed in as function parameters, so every pipeline function
is a pure function of its inputs.
-/

/-- Decidable equality for `Except`, used to evaluate pipeline results on
concrete inputs. -/
instance {ε α : Type} [DecidableEq ε] [DecidableEq α] : DecidableEq (Except ε α) :=
  fun a b =>
    match a, b with
    | Except.error x, Except.error y =>
      if h : x = y then isTrue (congrArg Except.error h)
      else isFalse (fun hh => h (Except.error.inj hh))
    | Except.error _, Except.ok _ => isFalse (fun hh => Except.noConfusion hh)
    | Except.ok _, Except.error _ => isFalse (fun hh => Except.noConfusion hh)
    | Except.ok x, Except.ok y =>
      if h : x = y then isTrue (congrArg Except.ok h)
      else isFalse (fun hh => h (Except.ok.inj hh))

namespace Cubie

/-- Constant `LAMPORTS_PER_SOL` from the web3 library: lamports per whole unit. -/
def LAMPORTS_PER_SOL : ℚ := 1000000000

/-- Address of the compute-budget program (`ComputeBudgetProgram.programId`). -/
def computeBudgetProgramId : String := "ComputeBudget111111111111111111111111111111"

/-- Constant `PUMPFUN_PROGRAM` from `src/utils/constants.ts`. -/
def PUMPFUN_PROGRAM : String := "6EF8rrecthR5Dkzon8Nwu78hRvfCKubJ14M5uBEwF6P"

/-- One entry of `meta.preTokenBalances` / `meta.postTokenBalances`:
owner address, token mint, and the raw amount string `uiTokenAmount.amount`
(a decimal integer, modelled as `Nat`). -/
structure TokenBalance where
  owner : String
  mint : String
  amount : Nat
deriving DecidableEq

/-- One entry of `transaction.message.accountKeys`: base58 pubkey and
whether the account signed the transaction. -/
structure AccountKeyEntry where
  pubkey : String
  signer : Bool
deriving DecidableEq

/-- One entry of `transaction.message.instructions`: the program address and
the raw instruction data bytes (the source holds them base58-encoded and
decodes with `bs58.decode`; the model carries the decoded bytes). -/
structure Instruction where
  programId : String
  data : List Nat
deriving DecidableEq

/-- Field `transaction.message` of a parsed transaction. -/
structure TransactionMessage where
  accountKeys : List AccountKeyEntry
  instructions : List Instruction
deriving DecidableEq

/-- Field `meta` of a `ParsedTransactionWithMeta`; every field the source reads
through optional chaining is optional here. -/
structure TransactionMeta where
  preTokenBalances : Option (List TokenBalance)
  postTokenBalances : Option (List TokenBalance)
  preBalances : Option (List Nat)
  postBalances : Option (List Nat)
  fee : Option Nat
  computeUnitsConsumed : Option Nat
deriving DecidableEq

/-- A `ParsedTransactionWithMeta` as consumed by `computeTokenPrice`. -/
structure ParsedTransactionWithMeta where
  meta : Option TransactionMeta
  blockTime : Option Nat
  signatures : List String
  message : TransactionMessage
deriving DecidableEq

/-- The `ParsedTokenHistory` record emitted by `computeTokenPrice`. -/
structure ParsedTokenHistory where
  signature : String
  mint : String
  type : String
  owner : String
  preTokenBalance : ℚ
  postTokenBalance : ℚ
  preSolBalance : ℚ
  postSolBalance : ℚ
  price : ℚ
  date : Nat
deriving DecidableEq

/-- Model of the collaborator `ComputeBudgetInstruction.decodeInstructionType`
(`@solana/web3.js`): reads the one-byte discriminator and maps it to the
instruction type name; a missing or unknown discriminator raises. -/
def decodeInstructionType (data : List Nat) : Except String String :=
  match data.head? with
  | none => Except.error "Invalid instruction type"
  | some 0 => Except.ok "RequestUnits"
  | some 1 => Except.ok "RequestHeapFrame"
  | some 2 => Except.ok "SetComputeUnitLimit"
  | some 3 => Except.ok "SetComputeUnitPrice"
  | some _ => Except.error "Invalid instruction type"

/-- Little-endian byte-sequence decoding (first byte least significant). -/
def leBytesToNat (bs : List Nat) : Nat :=
  bs.foldr (fun b acc => b + 256 * acc) 0

/-- Model of the collaborator `ComputeBudgetInstruction.decodeSetComputeUnitPrice`:
requires discriminator byte 3 followed by an 8-byte little-endian u64
micro-lamport price; anything shorter or differently tagged raises. -/
def decodeSetComputeUnitPrice (data : List Nat) : Except String Nat :=
  if data.head? = some 3 ∧ 9 ≤ data.length then
    Except.ok (leBytesToNat ((data.drop 1).take 8))
  else Except.error "Invalid instruction; not SetComputeUnitPrice"

/-- The signer balance lookup of `computeTokenPrice`:
`Number(balances.find(b => b.owner === owner && b.mint === mint)?.uiTokenAmount.amount || 0) / Math.pow(10, 6)`.
An absent entry counts as a raw amount of `0`. -/
def tokenBalanceLookup (balances : List TokenBalance) (owner mint : String) : ℚ :=
  (((balances.find? (fun b => b.owner == owner && b.mint == mint)).map
      TokenBalance.amount).getD 0 : ℚ) / 10 ^ 6

/-- The instructions of `tx` addressed to the compute-budget program
(`message.instructions.filter(ins => ins.programId.equals(ComputeBudgetProgram.programId))`). -/
def computeBudgetInstructionsOf (tx : ParsedTransactionWithMeta) : List Instruction :=
  tx.message.instructions.filter (fun i => i.programId == computeBudgetProgramId)

/-- The `instructions.forEach` loop of `computeTokenPrice` that decodes each
compute-budget instruction and keeps the micro-lamport price of the last
`SetComputeUnitPrice` instruction seen (starting from `0n`).  A decoding
failure propagates, as the JS `forEach` would rethrow it. -/
def microLamportsFold : List Instruction → Nat → Except String Nat
  | [], micro => Except.ok micro
  | ins :: rest, micro =>
    match decodeInstructionType ins.data with
    | Except.error e => Except.error e
    | Except.ok ty =>
      if ty = "SetComputeUnitPrice" then
        match decodeSetComputeUnitPrice ins.data with
        | Except.error e => Except.error e
        | Except.ok m => microLamportsFold rest m
      else microLamportsFold rest micro

/-- The priority-fee computation of `computeTokenPrice`: if there is no
compute-budget instruction the fee is `0`; otherwise
`Math.floor(computeUnitsConsumed * Number(microLamports) / 1e6)`
with `computeUnitsConsumed` defaulting to `0`. -/
def priorityFeeOf (tx : ParsedTransactionWithMeta) : Except String Nat :=
  let instructions := computeBudgetInstructionsOf tx
  if instructions.isEmpty then Except.ok 0
  else
    match microLamportsFold instructions 0 with
    | Except.error e => Except.error e
    | Except.ok micro =>
      Except.ok ((tx.meta.bind TransactionMeta.computeUnitsConsumed).getD 0 * micro / 1000000)

/-- The body of the `signers.forEach` callback in `computeTokenPrice`, for one
signer `(index, accountKey)`: look up pre/post token balances, skip when they
are equal (or the block time is falsy), otherwise build the emitted record. -/
def computeSignerTrade (mint : String) (tx : ParsedTransactionWithMeta)
    (preTB postTB : List TokenBalance) (preB postB : List Nat) (fee bt : Nat)
    (s : Nat × AccountKeyEntry) : Except String (Option ParsedTokenHistory) :=
  let preTokenBalance := tokenBalanceLookup preTB s.2.pubkey mint
  let postTokenBalance := tokenBalanceLookup postTB s.2.pubkey mint
  if preTokenBalance = postTokenBalance ∨ bt = 0 then Except.ok none
  else
    match priorityFeeOf tx with
    | Except.error e => Except.error e
    | Except.ok priorityFee =>
      let preSolBalance := (preB.getD s.1 0 : ℚ) / LAMPORTS_PER_SOL
      let postSolBalance := ((postB.getD s.1 0 + fee + priorityFee : Nat) : ℚ) / LAMPORTS_PER_SOL
      let tradeType := if postTokenBalance < preTokenBalance then "sell" else "buy"
      let num := |preTokenBalance - postTokenBalance|
      let den := |preSolBalance - postSolBalance|
      let price := if den = 0 then 0 else num / den
      Except.ok (some {
        signature := tx.signatures.getD 0 ""
        mint := mint
        type := tradeType
        owner := s.2.pubkey
        preTokenBalance := preTokenBalance
        postTokenBalance := postTokenBalance
        preSolBalance := preSolBalance
        postSolBalance := postSolBalance
        price := price
        date := bt })

/-- The `signers.forEach` loop of `computeTokenPrice`, pushing each emitted
record onto the accumulator; a thrown error aborts the loop. -/
def foldTrades (mint : String) (tx : ParsedTransactionWithMeta)
    (preTB postTB : List TokenBalance) (preB postB : List Nat) (fee bt : Nat) :
    List (Nat × AccountKeyEntry) → List ParsedTokenHistory →
      Except String (List ParsedTokenHistory)
  | [], acc => Except.ok acc
  | s :: rest, acc =>
    match computeSignerTrade mint tx preTB postTB preB postB fee bt s with
    | Except.error e => Except.error e
    | Except.ok none => foldTrades mint tx preTB postTB preB postB fee bt rest acc
    | Except.ok (some h) => foldTrades mint tx preTB postTB preB postB fee bt rest (acc ++ [h])

/-- The signer list of `computeTokenPrice`: account keys with their indexes,
filtered to the ones flagged as signers. -/
def signersOf (tx : ParsedTransactionWithMeta) : List (Nat × AccountKeyEntry) :=
  tx.message.accountKeys.enum.filter (fun p => p.2.signer)

/-- Function `computeTokenPrice(parsedTranstion, mint)` from `src/solana/market.ts`:
returns `none` (JS `undefined`) when any of the balance snapshots or the
block time is missing (or the block time is the falsy `0`), and otherwise the
per-signer trade records; a decoding error thrown inside the loop escapes. -/
def computeTokenPrice (tx : ParsedTransactionWithMeta) (mint : String) :
    Except String (Option (List ParsedTokenHistory)) :=
  let fee := (tx.meta.bind TransactionMeta.fee).getD 0
  match tx.meta.bind TransactionMeta.preTokenBalances,
        tx.meta.bind TransactionMeta.postTokenBalances,
        tx.meta.bind TransactionMeta.preBalances,
        tx.meta.bind TransactionMeta.postBalances, tx.blockTime with
  | some preTB, some postTB, some preB, some postB, some bt =>
    if bt = 0 then Except.ok none
    else
      match foldTrades mint tx preTB postTB preB postB fee bt (signersOf tx) [] with
      | Except.error e => Except.error e
      | Except.ok trades => Except.ok (some trades)
  | _, _, _, _, _ => Except.ok none

/-- One response of `solanaConnection.getParsedTransactions` for a batch:
either a list with a possibly-`null` entry per requested signature, or a
thrown error. -/
inductive FetchAttempt where
  | ok (resp : List (Option ParsedTransactionWithMeta))
  | err (msg : String)
deriving DecidableEq

/-- Observable outcome of `getTransactionsWithRetries`: the collected
transactions, the number of provider calls made, and the backoff delays
(milliseconds) slept inside the catch branch. -/
structure RetryResult where
  transactions : List ParsedTransactionWithMeta
  attempts : Nat
  sleeps : List Nat
deriving DecidableEq

/-- The `while (retries < 5)` loop of `getTransactionsWithRetries`, with the
provider response indexed by attempt number: a successful call keeps the
non-`null` entries and breaks; a failure sleeps 1000 ms and retries. -/
def retryGo (provider : Nat → FetchAttempt) : Nat → Nat → RetryResult
  | attempt, 0 => ⟨[], attempt, []⟩
  | attempt, fuel + 1 =>
    match provider attempt with
    | FetchAttempt.ok resp => ⟨resp.filterMap id, attempt + 1, []⟩
    | FetchAttempt.err _ =>
      let r := retryGo provider (attempt + 1) fuel
      ⟨r.transactions, r.attempts, 1000 :: r.sleeps⟩

/-- Function `getTransactionsWithRetries(batch)` from `src/solana/market.ts`: up to 5
attempts starting from attempt 0. -/
def getTransactionsWithRetries (provider : Nat → FetchAttempt) : RetryResult :=
  retryGo provider 0 5

/-- A `ConfirmedSignatureInfo` entry of the signature history: signature,
error flag (`null` for a successful transaction) and block time. -/
structure ConfirmedSignatureInfo where
  signature : String
  err : Option String
  blockTime : Nat
deriving DecidableEq

/-- The `while (current.length > 0)` loop of
`getAllTransactionsUntilLastSignature`: each further page is requested with
`before` anchored at the last signature of the previous page.  `fuel` bounds
the number of further pages the model unrolls (the source loops until an
empty page). -/
def walkPages (provider : Option String → List ConfirmedSignatureInfo) :
    List ConfirmedSignatureInfo → Nat → List ConfirmedSignatureInfo
  | _, 0 => []
  | current, fuel + 1 =>
    match current.getLast? with
    | none => []
    | some lastRec =>
      let next := provider (some lastRec.signature)
      next ++ walkPages provider next fuel

/-- Function `getAllTransactionsUntilLastSignature(mint, lastSignature)`: the first
page is requested with no `before` anchor, and all pages get the same
`until` bound (already baked into `provider`). -/
def getAllTransactionsUntilLastSignature
    (provider : Option String → List ConfirmedSignatureInfo) (fuel : Nat) :
    List ConfirmedSignatureInfo :=
  let current := provider none
  current ++ walkPages provider current fuel

/-- The records `getTokenPoolInfo` forwards to batching:
`allSignatures.slice(0, 5000)` and then `filter(t => t.err === null)`. -/
def successfullTransactions (l : List ConfirmedSignatureInfo) :
    List ConfirmedSignatureInfo :=
  (l.take 5000).filter (fun t => t.err.isNone)

/-- The `BATCH_SIZE = 100` chunking loop of `getTokenPoolInfo`, with a fuel
argument for structural recursion; each step consumes at least one element,
so a fuel of the list length suffices. -/
def chunkGo : Nat → List ConfirmedSignatureInfo → List (List ConfirmedSignatureInfo)
  | 0, _ => []
  | _ + 1, [] => []
  | fuel + 1, x :: xs => ((x :: xs).take 100) :: chunkGo fuel ((x :: xs).drop 100)

/-- The `BATCH_SIZE = 100` chunking loop of `getTokenPoolInfo`: slices of
100 records starting at indexes 0, 100, 200, and so on. -/
def chunk100 (l : List ConfirmedSignatureInfo) : List (List ConfirmedSignatureInfo) :=
  chunkGo l.length l

/-- One item of the `data` array in the Raydium `fetchPoolByMints` response. -/
structure ApiV3PoolInfoItem where
  id : String
deriving DecidableEq

/-- The Raydium `fetchPoolByMints` response object. -/
structure PoolFetchResponse where
  data : List ApiV3PoolInfoItem
deriving DecidableEq

/-- The bytes of `Buffer.from("bonding-curve")`. -/
def bondingCurveSeed : List Nat := "bonding-curve".toList.map Char.toNat

/-- The external collaborators of the pipeline, passed as pure functions:
the Raydium registry lookup (which may raise), the program-derived-address
routine, base58 pubkey decoding, the paged signature-history provider
(pool address, `until` cursor, `before` anchor), the transaction-body
provider (batch signatures, attempt number), and the page fuel for the
walker model. -/
structure ChainEnv where
  fetchPoolByMints : String → Except String (Option PoolFetchResponse)
  findProgramAddressSync : List (List Nat) → String → String
  toBuffer : String → List Nat
  sigPages : String → Option String → Option String → List ConfirmedSignatureInfo
  txFetch : List String → Nat → FetchAttempt
  walkFuel : Nat

/-- Function `getPoolInfo(mint)` from `src/solana/market.ts`: a falsy or empty
registry response falls back to
`PublicKey.findProgramAddressSync([Buffer.from("bonding-curve"), mintBytes], PUMPFUN_PROGRAM)`;
the registry call itself is not guarded, so a raised error escapes. -/
def getPoolInfo (env : ChainEnv) (mint : String) : Except String String :=
  match env.fetchPoolByMints mint with
  | Except.error e => Except.error e
  | Except.ok none =>
    Except.ok (env.findProgramAddressSync [bondingCurveSeed, env.toBuffer mint] PUMPFUN_PROGRAM)
  | Except.ok (some pi) =>
    match pi.data with
    | [] =>
      Except.ok (env.findProgramAddressSync [bondingCurveSeed, env.toBuffer mint] PUMPFUN_PROGRAM)
    | p :: _ => Except.ok p.id

/-- The `parsedTransactions.forEach` loop of `processTransactionBatch`:
gather the records of each transaction; an error thrown by
`computeTokenPrice` escapes the loop. -/
def foldTxs (mint : String) :
    List ParsedTransactionWithMeta → List ParsedTokenHistory →
      Except String (List ParsedTokenHistory)
  | [], acc => Except.ok acc
  | tx :: rest, acc =>
    match computeTokenPrice tx mint with
    | Except.error e => Except.error e
    | Except.ok none => foldTxs mint rest acc
    | Except.ok (some h) => foldTxs mint rest (acc ++ h)

/-- Function `processTransactionBatch(batch, mint)` from `src/solana/market.ts`. -/
def processTransactionBatch (provider : Nat → FetchAttempt) (mint : String) :
    Except String (List ParsedTokenHistory) :=
  foldTxs mint (getTransactionsWithRetries provider).transactions []

/-- The `for (const batch of batches)` loop of `getTokenPoolInfo`; a batch
whose processing throws aborts the loop. -/
def foldBatches (env : ChainEnv) (mint : String) :
    List (List ConfirmedSignatureInfo) → List ParsedTokenHistory →
      Except String (List ParsedTokenHistory)
  | [], acc => Except.ok acc
  | b :: bs, acc =>
    match processTransactionBatch (env.txFetch (b.map ConfirmedSignatureInfo.signature)) mint with
    | Except.error e => Except.error e
    | Except.ok r => foldBatches env mint bs (acc ++ r)

/-- Function `getTokenPoolInfo(mint, lastSignature)` from `src/solana/market.ts`. -/
def getTokenPoolInfo (env : ChainEnv) (mint : String) (lastSignature : Option String) :
    Except String (List ParsedTokenHistory) :=
  match getPoolInfo env mint with
  | Except.error e => Except.error e
  | Except.ok pool =>
    let transactions :=
      getAllTransactionsUntilLastSignature (env.sigPages pool lastSignature) env.walkFuel
    foldBatches env mint (chunk100 (successfullTransactions transactions)) []

/-- Function `getHistoricalTransactionData(mint, lastSignature)`. -/
def getHistoricalTransactionData (env : ChainEnv) (mint : String)
    (lastSignature : Option String) : Except String (List ParsedTokenHistory) :=
  getTokenPoolInfo env mint lastSignature

/-- An agent row as read by `syncAgentTransactionHistory`. -/
structure AgentRec where
  id : Nat
  mint : String
deriving DecidableEq

/-- A `PriceHistory` row written by `syncAgentTransactionHistory`. -/
structure PriceRow where
  price : ℚ
  blockTime : Nat
  agentId : Nat
  signature : String
deriving DecidableEq

/-- The `for (const agent of agents)` loop of `syncAgentTransactionHistory`
in `src/helpers/agent.ts`: per agent, fetch the history and append one
`PriceHistory` row per item; an error thrown by the fetch aborts the loop. -/
def syncAgents (env : ChainEnv) (getLastSignature : Nat → Option String) :
    List AgentRec → List PriceRow → Except String (List PriceRow)
  | [], acc => Except.ok acc
  | agent :: rest, acc =>
    match getHistoricalTransactionData env agent.mint (getLastSignature agent.id) with
    | Except.error e => Except.error e
    | Except.ok history =>
      syncAgents env getLastSignature rest
        (acc ++ history.map (fun item => ⟨item.price, item.date, agent.id, item.signature⟩))

/-- Function `syncAgentTransactionHistory` from `src/helpers/agent.ts`, over a
given agent list and cursor store. -/
def syncAgentTransactionHistory (env : ChainEnv) (getLastSignature : Nat → Option String)
    (agents : List AgentRec) : Except String (List PriceRow) :=
  syncAgents env getLastSignature agents []

/-- A `PriceHistory` row as read by `getAgentResponse` in
`src/helpers/agent.ts`; the stored price string is modelled by its
`parseFloat` result, `none` standing for `NaN`. -/
structure PriceHistoryRow where
  blockTime : Nat
  price : Option ℚ
deriving DecidableEq

/-- One entry of the `history` array in the expanded agent response. -/
structure HistoricPrice where
  time : Nat
  price : ℚ
deriving DecidableEq

/-- The distinct block times of the rows, each kept at its first occurrence. -/
def firstOccurrences : List Nat → List Nat
  | [] => []
  | t :: ts => t :: (firstOccurrences ts).filter (fun u => u != t)

/-- Insertion into an ascending `Nat` list. -/
def insertNatAsc (t : Nat) : List Nat → List Nat
  | [] => [t]
  | u :: us => if t ≤ u then t :: u :: us else u :: insertNatAsc t us

/-- Ascending insertion sort on `Nat`, modelling the ascending enumeration of
integer-indexed keys that JS `Object.entries` performs on the
`Record<number, PriceHistory[]>` built by `getAgentResponse`. -/
def sortNatAsc : List Nat → List Nat
  | [] => []
  | t :: ts => insertNatAsc t (sortNatAsc ts)

/-- The `prices.reduce` sum in `getAgentResponse`, over the rows grouped at
block time `t`: `NaN` prices (`none`) are skipped. -/
def sumPricesAt (rows : List PriceHistoryRow) (t : Nat) : ℚ :=
  rows.foldl (fun acc r =>
    if r.blockTime = t then
      match r.price with
      | some p => acc + p
      | none => acc
    else acc) 0

/-- The `flattendHistory` array of `getAgentResponse`: one time-price
entry per distinct block time, in the ascending integer-key enumeration
order of `Object.entries`. -/
def flattendHistory (rows : List PriceHistoryRow) : List HistoricPrice :=
  (sortNatAsc (firstOccurrences (rows.map PriceHistoryRow.blockTime))).map
    (fun t => ⟨t, sumPricesAt rows t⟩)

/-- Insertion into a list ascending by `time`, modelling the JS comparator
`(a, b) => a.time - b.time`. -/
def insertByTime (x : HistoricPrice) : List HistoricPrice → List HistoricPrice
  | [] => [x]
  | y :: ys => if x.time ≤ y.time then x :: y :: ys else y :: insertByTime x ys

/-- The sort `flattendHistory.sort((a, b) => a.time - b.time)`. -/
def sortByTime : List HistoricPrice → List HistoricPrice
  | [] => []
  | x :: xs => insertByTime x (sortByTime xs)

/-- The `history` array returned on the expanded path of `getAgentResponse`:
`response.history = flattendHistory.sort(...)` sorts the array **in place**
(JS `Array.prototype.sort` mutates and returns the same array), so the
second assignment `response.history = flattendHistory` re-assigns the
already-sorted array. -/
def getAgentResponseHistory (rows : List PriceHistoryRow) : List HistoricPrice :=
  sortByTime (flattendHistory rows)

/-- Modelled from the spec: the value claim C9 says is returned — the
"unsorted per-block-time aggregated sequence" in its original
(first-encounter) order, with the time-sorted result discarded. -/
def specUnsortedHistory (rows : List PriceHistoryRow) : List HistoricPrice :=
  (firstOccurrences (rows.map PriceHistoryRow.blockTime)).map
    (fun t => ⟨t, sumPricesAt rows t⟩)

/-! Concrete inputs used by witnesses and counterexamples. -/

/-- A transaction in which the single signer sells 2.0 tokens for 0.5 SOL:
pre/post token balances 5.0 and 3.0, pre/post native balances 1.0 and 1.5
whole units (fee 0, no compute-budget instruction). -/
def txSell : ParsedTransactionWithMeta :=
  { meta := some
      { preTokenBalances := some [⟨"S", "M", 5000000⟩]
        postTokenBalances := some [⟨"S", "M", 3000000⟩]
        preBalances := some [1000000000]
        postBalances := some [1500000000]
        fee := some 0
        computeUnitsConsumed := none }
    blockTime := some 99
    signatures := ["SIG1"]
    message := { accountKeys := [⟨"S", true⟩], instructions := [] } }

/-- The trade record `computeTokenPrice txSell "M"` emits. -/
def tradeSell : ParsedTokenHistory :=
  { signature := "SIG1", mint := "M", type := "sell", owner := "S"
    preTokenBalance := 5, postTokenBalance := 3
    preSolBalance := 1, postSolBalance := 3 / 2
    price := 4, date := 99 }

/-- A transaction with no token-balance entries at all for its signer. -/
def txIdle : ParsedTransactionWithMeta :=
  { meta := some
      { preTokenBalances := some []
        postTokenBalances := some []
        preBalances := some [5]
        postBalances := some [5]
        fee := some 0
        computeUnitsConsumed := none }
    blockTime := some 7
    signatures := ["SIG2"]
    message := { accountKeys := [⟨"S", true⟩], instructions := [] } }

/-- A transaction that buys 1.0 token and carries a compute-budget
`SetComputeUnitPrice` instruction declaring 10000 micro-lamports
(discriminator byte 3 followed by the little-endian u64 10000). -/
def txBuy : ParsedTransactionWithMeta :=
  { meta := some
      { preTokenBalances := some []
        postTokenBalances := some [⟨"S", "M", 1000000⟩]
        preBalances := some [2000000000]
        postBalances := some [1000000000]
        fee := some 5000
        computeUnitsConsumed := some 200000 }
    blockTime := some 42
    signatures := ["SIG3"]
    message :=
      { accountKeys := [⟨"S", true⟩]
        instructions := [⟨computeBudgetProgramId, [3, 16, 39, 0, 0, 0, 0, 0, 0]⟩] } }

/-- The trade record `computeTokenPrice txBuy "M"` emits: priority fee
floor(200000 * 10000 / 1e6) = 2000 lamports is added back to the raw post
balance together with the base fee 5000. -/
def tradeBuy : ParsedTokenHistory :=
  { signature := "SIG3", mint := "M", type := "buy", owner := "S"
    preTokenBalance := 0, postTokenBalance := 1
    preSolBalance := 2, postSolBalance := 1000007000 / 1000000000
    price := 1000000000 / 999993000, date := 42 }

/-- A transaction whose compute-budget instruction has an unknown
discriminator byte, which makes the instruction-type decoder raise. -/
def txBadInstruction : ParsedTransactionWithMeta :=
  { meta := some
      { preTokenBalances := some []
        postTokenBalances := some [⟨"S", "M1", 5⟩]
        preBalances := some [10]
        postBalances := some [10]
        fee := some 0
        computeUnitsConsumed := some 0 }
    blockTime := some 1
    signatures := ["SIG1"]
    message :=
      { accountKeys := [⟨"S", true⟩]
        instructions := [⟨computeBudgetProgramId, [9]⟩] } }

/-- An environment whose venue-registry lookup raises. -/
def envRegistryError : ChainEnv :=
  { fetchPoolByMints := fun _ => Except.error "network down"
    findProgramAddressSync := fun _ _ => "PDA"
    toBuffer := fun _ => []
    sigPages := fun _ _ _ => []
    txFetch := fun _ _ => FetchAttempt.err "unused"
    walkFuel := 0 }

/-- An environment whose registry lists the pool "POOL1" for every mint. -/
def envRegistryHit : ChainEnv :=
  { fetchPoolByMints := fun _ => Except.ok (some ⟨[⟨"POOL1"⟩]⟩)
    findProgramAddressSync := fun _ _ => "PDA"
    toBuffer := fun _ => []
    sigPages := fun _ _ _ => []
    txFetch := fun _ _ => FetchAttempt.err "unused"
    walkFuel := 0 }

/-- An environment in which the history of the (fallback) pool is one
successful signature whose transaction body is `txBadInstruction`: running
the pipeline over it makes the per-transaction price derivation raise. -/
def envBadDecode : ChainEnv :=
  { fetchPoolByMints := fun _ => Except.ok none
    findProgramAddressSync := fun _ _ => "POOL"
    toBuffer := fun s => s.toList.map Char.toNat
    sigPages := fun _ _ before =>
      match before with
      | none => [⟨"SIG1", none, 1⟩]
      | some _ => []
    txFetch := fun _ _ => FetchAttempt.ok [some txBadInstruction]
    walkFuel := 1 }

/-- A one-page signature-history provider: one successful record "A", and
every anchored page is empty. -/
def providerOnePage : Option String → List ConfirmedSignatureInfo :=
  fun b =>
    match b with
    | none => [⟨"A", none, 5⟩]
    | some _ => []

/-- A recency rank for `providerOnePage`: the single signature "A" is
strictly newer than the cursor (rank 0). -/
def rankOnePage : String → Nat := fun s => if s = "A" then 1 else 0

/-- Price-history rows whose first-encounter block-time order (2 before 1)
differs from ascending time order. -/
def rowsOutOfOrder : List PriceHistoryRow := [⟨2, some 5⟩, ⟨1, some 3⟩]

/-- A raw signature history of one failed record followed by 5001 successful
ones: more than 5000 successes in total. -/
def historyOverCap : List ConfirmedSignatureInfo :=
  ⟨"F", some "failed", 0⟩ :: List.replicate 5001 ⟨"S", none, 1⟩

/-! Helper lemmas. -/

/-- Inversion for `computeSignerTrade`: an emitted record pins down every
field and forces the token balances to differ and the priority fee to be
computed. -/
theorem computeSignerTrade_ok_some {mint : String} {tx : ParsedTransactionWithMeta}
    {preTB postTB : List TokenBalance} {preB postB : List Nat} {fee bt : Nat}
    {s : Nat × AccountKeyEntry} {e : ParsedTokenHistory}
    (h : computeSignerTrade mint tx preTB postTB preB postB fee bt s = Except.ok (some e)) :
    ∃ pf, priorityFeeOf tx = Except.ok pf ∧
      tokenBalanceLookup preTB s.2.pubkey mint ≠ tokenBalanceLookup postTB s.2.pubkey mint ∧
      bt ≠ 0 ∧
      e = { signature := tx.signatures.getD 0 ""
            mint := mint
            type := if tokenBalanceLookup postTB s.2.pubkey mint <
                tokenBalanceLookup preTB s.2.pubkey mint then "sell" else "buy"
            owner := s.2.pubkey
            preTokenBalance := tokenBalanceLookup preTB s.2.pubkey mint
            postTokenBalance := tokenBalanceLookup postTB s.2.pubkey mint
            preSolBalance := (preB.getD s.1 0 : ℚ) / LAMPORTS_PER_SOL
            postSolBalance := ((postB.getD s.1 0 + fee + pf : Nat) : ℚ) / LAMPORTS_PER_SOL
            price :=
              if |(preB.getD s.1 0 : ℚ) / LAMPORTS_PER_SOL -
                    ((postB.getD s.1 0 + fee + pf : Nat) : ℚ) / LAMPORTS_PER_SOL| = 0 then 0
              else |tokenBalanceLookup preTB s.2.pubkey mint -
                    tokenBalanceLookup postTB s.2.pubkey mint| /
                  |(preB.getD s.1 0 : ℚ) / LAMPORTS_PER_SOL -
                    ((postB.getD s.1 0 + fee + pf : Nat) : ℚ) / LAMPORTS_PER_SOL|
            date := bt } := by
  simp only [computeSignerTrade] at h
  split at h
  · simp at h
  · rename_i hcond
    push_neg at hcond
    split at h
    · simp at h
    · rename_i pf hpf
      refine ⟨pf, hpf, hcond.1, hcond.2, ?_⟩
      simp only [Except.ok.injEq, Option.some.injEq] at h
      exact h.symm

/-- A signer whose looked-up token balances are equal emits nothing. -/
theorem computeSignerTrade_skip {mint : String} {tx : ParsedTransactionWithMeta}
    {preTB postTB : List TokenBalance} {preB postB : List Nat} {fee bt : Nat}
    {s : Nat × AccountKeyEntry}
    (h : tokenBalanceLookup preTB s.2.pubkey mint = tokenBalanceLookup postTB s.2.pubkey mint) :
    computeSignerTrade mint tx preTB postTB preB postB fee bt s = Except.ok none := by
  simp only [computeSignerTrade]
  rw [if_pos (Or.inl h)]

/-- Every record produced by the signer loop comes from the accumulator or
from a signer of the list. -/
theorem foldTrades_ok_mem {mint : String} {tx : ParsedTransactionWithMeta}
    {preTB postTB : List TokenBalance} {preB postB : List Nat} {fee bt : Nat} :
    ∀ (l : List (Nat × AccountKeyEntry)) (acc res : List ParsedTokenHistory),
      foldTrades mint tx preTB postTB preB postB fee bt l acc = Except.ok res →
      ∀ e ∈ res, e ∈ acc ∨ ∃ s ∈ l,
        computeSignerTrade mint tx preTB postTB preB postB fee bt s = Except.ok (some e) := by
  intro l
  induction l with
  | nil =>
    intro acc res h e he
    simp only [foldTrades, Except.ok.injEq] at h
    subst h
    exact Or.inl he
  | cons s rest ih =>
    intro acc res h e he
    simp only [foldTrades] at h
    cases hs : computeSignerTrade mint tx preTB postTB preB postB fee bt s with
    | error msg => rw [hs] at h; simp at h
    | ok o =>
      rw [hs] at h
      cases o with
      | none =>
        rcases ih acc res h e he with h' | ⟨s', hs', h''⟩
        · exact Or.inl h'
        · exact Or.inr ⟨s', List.mem_cons_of_mem _ hs', h''⟩
      | some hrec =>
        rcases ih (acc ++ [hrec]) res h e he with h' | ⟨s', hs', h''⟩
        · rcases List.mem_append.mp h' with h'' | h''
          · exact Or.inl h''
          · have : e = hrec := by simpa using h''
            subst this
            exact Or.inr ⟨s, List.mem_cons_self _ _, hs⟩
        · exact Or.inr ⟨s', List.mem_cons_of_mem _ hs', h''⟩

/-- Inversion for `computeTokenPrice`: every emitted record comes from some
signer, with all the balance snapshots and a non-falsy block time present. -/
theorem computeTokenPrice_ok_mem {tx : ParsedTransactionWithMeta} {mint : String}
    {l : List ParsedTokenHistory} {e : ParsedTokenHistory}
    (hok : computeTokenPrice tx mint = Except.ok (some l)) (he : e ∈ l) :
    ∃ preTB postTB preB postB bt,
      tx.meta.bind TransactionMeta.preTokenBalances = some preTB ∧
      tx.meta.bind TransactionMeta.postTokenBalances = some postTB ∧
      tx.meta.bind TransactionMeta.preBalances = some preB ∧
      tx.meta.bind TransactionMeta.postBalances = some postB ∧
      tx.blockTime = some bt ∧ bt ≠ 0 ∧
      ∃ s ∈ signersOf tx,
        computeSignerTrade mint tx preTB postTB preB postB
          ((tx.meta.bind TransactionMeta.fee).getD 0) bt s = Except.ok (some e) := by
  simp only [computeTokenPrice] at hok
  split at hok
  · rename_i preTB postTB preB postB bt h1 h2 h3 h4 h5
    split at hok
    · simp at hok
    · rename_i hbt
      split at hok
      · simp at hok
      · rename_i trades htr
        simp only [Except.ok.injEq, Option.some.injEq] at hok
        subst hok
        refine ⟨preTB, postTB, preB, postB, bt, h1, h2, h3, h4, h5, hbt, ?_⟩
        have hmem := foldTrades_ok_mem (signersOf tx) [] trades htr e he
        rcases hmem with h' | ⟨s, hs, h''⟩
        · simp at h'
        · exact ⟨s, hs, h''⟩
  · simp at hok

/-! Claim theorems. -/

/-- C1: every trade emitted by `computeTokenPrice` is typed `sell` exactly
when the post-asset balance is below the pre-asset balance and `buy`
otherwise; its price is the absolute asset-balance delta divided by the
absolute native-balance delta, clamped to exactly 0 when the denominator is
zero; and every emitted price is a (finite) non-negative rational. -/
theorem priced_trade_direction_and_price (tx : ParsedTransactionWithMeta) (mint : String)
    (l : List ParsedTokenHistory) (e : ParsedTokenHistory)
    (hok : computeTokenPrice tx mint = Except.ok (some l)) (he : e ∈ l) :
    e.type = (if e.postTokenBalance < e.preTokenBalance then "sell" else "buy") ∧
    e.price = (if |e.preSolBalance - e.postSolBalance| = 0 then 0
      else |e.preTokenBalance - e.postTokenBalance| / |e.preSolBalance - e.postSolBalance|) ∧
    0 ≤ e.price := by
  obtain ⟨preTB, postTB, preB, postB, bt, _, _, _, _, _, _, s, _, hs⟩ :=
    computeTokenPrice_ok_mem hok he
  obtain ⟨pf, _, _, _, he'⟩ := computeSignerTrade_ok_some hs
  subst he'
  refine ⟨rfl, rfl, ?_⟩
  dsimp only
  split
  · exact le_refl 0
  · exact div_nonneg (abs_nonneg _) (abs_nonneg _)

/-- Evaluation of the pipeline core on `txSell`. -/
theorem computeTokenPrice_txSell :
    computeTokenPrice txSell "M" = Except.ok (some [tradeSell]) := by
  norm_num [computeTokenPrice, txSell, signersOf, List.enum, List.enumFrom, foldTrades,
    computeSignerTrade, tokenBalanceLookup, List.find?, priorityFeeOf,
    computeBudgetInstructionsOf, LAMPORTS_PER_SOL, tradeSell, ParsedTokenHistory.mk.injEq,
    abs_of_pos]

/-- C1 witness: the spec example — sell 2.0 tokens against 0.5 SOL at
price 4, a finite non-negative value. -/
theorem priced_trade_direction_and_price_witness :
    tradeSell.type =
      (if tradeSell.postTokenBalance < tradeSell.preTokenBalance then "sell" else "buy") ∧
    tradeSell.price = (if |tradeSell.preSolBalance - tradeSell.postSolBalance| = 0 then 0
      else |tradeSell.preTokenBalance - tradeSell.postTokenBalance| /
        |tradeSell.preSolBalance - tradeSell.postSolBalance|) ∧
    0 ≤ tradeSell.price :=
  priced_trade_direction_and_price txSell "M" [tradeSell] tradeSell computeTokenPrice_txSell
    (List.mem_singleton.mpr rfl)

/-- C2: the pre/post asset balances used for a signer are looked up by owner
and mint (an absent entry counting as raw amount zero, a present entry
scaled by 10^6), and a signer whose two looked-up balances are equal — in
particular one with no balance entries at all — emits no trade; every
emitted trade belongs to a signer whose looked-up balances differ. -/
theorem balance_lookup_and_unchanged_skip (tx : ParsedTransactionWithMeta) (mint : String) :
    (∀ balances owner,
        balances.find? (fun b => b.owner == owner && b.mint == mint) = none →
        tokenBalanceLookup balances owner mint = 0) ∧
    (∀ balances owner tb,
        balances.find? (fun b => b.owner == owner && b.mint == mint) = some tb →
        tokenBalanceLookup balances owner mint = (tb.amount : ℚ) / 10 ^ 6) ∧
    (∀ s ∈ signersOf tx, ∀ preTB postTB preB postB fee bt,
        tokenBalanceLookup preTB s.2.pubkey mint = tokenBalanceLookup postTB s.2.pubkey mint →
        computeSignerTrade mint tx preTB postTB preB postB fee bt s = Except.ok none) ∧
    (∀ l e, computeTokenPrice tx mint = Except.ok (some l) → e ∈ l →
        ∃ preTB postTB,
          tx.meta.bind TransactionMeta.preTokenBalances = some preTB ∧
          tx.meta.bind TransactionMeta.postTokenBalances = some postTB ∧
          ∃ s ∈ signersOf tx,
            e.owner = s.2.pubkey ∧
            e.preTokenBalance = tokenBalanceLookup preTB s.2.pubkey mint ∧
            e.postTokenBalance = tokenBalanceLookup postTB s.2.pubkey mint ∧
            e.preTokenBalance ≠ e.postTokenBalance) := by
  refine ⟨?_, ?_, ?_, ?_⟩
  · intro balances owner hfind
    simp [tokenBalanceLookup, hfind]
  · intro balances owner tb hfind
    simp [tokenBalanceLookup, hfind]
  · intro s _ preTB postTB preB postB fee bt h
    exact computeSignerTrade_skip h
  · intro l e hok he
    obtain ⟨preTB, postTB, preB, postB, bt, h1, h2, _, _, _, _, s, hsmem, hs⟩ :=
      computeTokenPrice_ok_mem hok he
    obtain ⟨pf, _, hne, _, he'⟩ := computeSignerTrade_ok_some hs
    subst he'
    exact ⟨preTB, postTB, h1, h2, s, hsmem, rfl, rfl, rfl, hne⟩

/-- C2 witness: a signer with no balance entries looks up zero on both
sides and emits no trade. -/
theorem balance_lookup_and_unchanged_skip_witness :
    tokenBalanceLookup [] "S" "M" = 0 ∧
    computeSignerTrade "M" txIdle [] [] [5] [5] 0 7 (0, ⟨"S", true⟩) = Except.ok none :=
  ⟨(balance_lookup_and_unchanged_skip txIdle "M").1 [] "S" rfl,
   (balance_lookup_and_unchanged_skip txIdle "M").2.2.1 (0, ⟨"S", true⟩) (by decide)
     [] [] [5] [5] 0 7 rfl⟩

/-- The last-write-wins fold over compute-budget instructions: a successful
fold result is either the starting value, with no instruction decoding to
SetComputeUnitPrice, or the declared price of one such instruction. -/
theorem microLamportsFold_source :
    ∀ (inss : List Instruction) (acc micro : Nat),
      microLamportsFold inss acc = Except.ok micro →
      (micro = acc ∧ ∀ ins ∈ inss,
          decodeInstructionType ins.data ≠ Except.ok "SetComputeUnitPrice") ∨
      (∃ ins ∈ inss, decodeInstructionType ins.data = Except.ok "SetComputeUnitPrice" ∧
          decodeSetComputeUnitPrice ins.data = Except.ok micro) := by
  intro inss
  induction inss with
  | nil =>
    intro acc micro h
    simp only [microLamportsFold, Except.ok.injEq] at h
    exact Or.inl ⟨h.symm, by simp⟩
  | cons ins rest ih =>
    intro acc micro h
    simp only [microLamportsFold] at h
    cases hd : decodeInstructionType ins.data with
    | error msg => rw [hd] at h; simp at h
    | ok ty =>
      simp only [hd] at h
      by_cases hty : ty = "SetComputeUnitPrice"
      · rw [if_pos hty] at h
        cases hp : decodeSetComputeUnitPrice ins.data with
        | error msg => rw [hp] at h; simp at h
        | ok m =>
          simp only [hp] at h
          rcases ih m micro h with ⟨hm, _⟩ | ⟨ins', hins', hd', hp'⟩
          · subst hm; subst hty
            exact Or.inr ⟨ins, List.mem_cons_self _ _, hd, hp⟩
          · exact Or.inr ⟨ins', List.mem_cons_of_mem _ hins', hd', hp'⟩
      · rw [if_neg hty] at h
        rcases ih acc micro h with ⟨hm, hnone⟩ | ⟨ins', hins', hd', hp'⟩
        · refine Or.inl ⟨hm, ?_⟩
          intro ins'' hins''
          rcases List.mem_cons.mp hins'' with rfl | hmem
          · rw [hd]
            exact fun hc => hty (Except.ok.inj hc)
          · exact hnone ins'' hmem
        · exact Or.inr ⟨ins', List.mem_cons_of_mem _ hins', hd', hp'⟩

/-- Inversion for `priorityFeeOf`. -/
theorem priorityFeeOf_ok {tx : ParsedTransactionWithMeta} {pf : Nat}
    (h : priorityFeeOf tx = Except.ok pf) :
    (computeBudgetInstructionsOf tx = [] ∧ pf = 0) ∨
    (computeBudgetInstructionsOf tx ≠ [] ∧ ∃ micro,
        microLamportsFold (computeBudgetInstructionsOf tx) 0 = Except.ok micro ∧
        pf = (tx.meta.bind TransactionMeta.computeUnitsConsumed).getD 0 * micro / 1000000) := by
  simp only [priorityFeeOf] at h
  by_cases he : (computeBudgetInstructionsOf tx).isEmpty = true
  · rw [if_pos he] at h
    simp only [Except.ok.injEq] at h
    exact Or.inl ⟨List.isEmpty_iff.mp he, h.symm⟩
  · rw [if_neg he] at h
    cases hm : microLamportsFold (computeBudgetInstructionsOf tx) 0 with
    | error msg => rw [hm] at h; simp at h
    | ok micro =>
      simp only [hm, Except.ok.injEq] at h
      exact Or.inr ⟨fun hnil => he (by simp [hnil]), micro, rfl, h.symm⟩


/-- C3: the native balances of every emitted trade are the raw signer
balances scaled by lamports-per-unit, with the base fee and the priority fee
added back to the post balance; the priority fee is
floor(units times microLamports over 1e6), where the micro-lamport price is
the decoded value of a SetComputeUnitPrice compute-budget instruction and
the fee is 0 when no compute-budget instruction exists. -/
theorem native_balances_and_priority_fee (tx : ParsedTransactionWithMeta) (mint : String)
    (l : List ParsedTokenHistory) (e : ParsedTokenHistory)
    (hok : computeTokenPrice tx mint = Except.ok (some l)) (he : e ∈ l) :
    ∃ s ∈ signersOf tx, ∃ preB postB pf,
      tx.meta.bind TransactionMeta.preBalances = some preB ∧
      tx.meta.bind TransactionMeta.postBalances = some postB ∧
      priorityFeeOf tx = Except.ok pf ∧
      e.preSolBalance = (preB.getD s.1 0 : ℚ) / LAMPORTS_PER_SOL ∧
      e.postSolBalance = ((postB.getD s.1 0 : ℚ) +
          ((tx.meta.bind TransactionMeta.fee).getD 0 : ℚ) + (pf : ℚ)) / LAMPORTS_PER_SOL ∧
      (computeBudgetInstructionsOf tx = [] → pf = 0) ∧
      (∀ micro, microLamportsFold (computeBudgetInstructionsOf tx) 0 = Except.ok micro →
          computeBudgetInstructionsOf tx ≠ [] →
          pf = (tx.meta.bind TransactionMeta.computeUnitsConsumed).getD 0 * micro / 1000000) ∧
      (∀ micro, microLamportsFold (computeBudgetInstructionsOf tx) 0 = Except.ok micro →
          (micro = 0 ∧ ∀ ins ∈ computeBudgetInstructionsOf tx,
              decodeInstructionType ins.data ≠ Except.ok "SetComputeUnitPrice") ∨
          (∃ ins ∈ computeBudgetInstructionsOf tx,
              decodeInstructionType ins.data = Except.ok "SetComputeUnitPrice" ∧
              decodeSetComputeUnitPrice ins.data = Except.ok micro)) := by
  obtain ⟨preTB, postTB, preB, postB, bt, _, _, h3, h4, _, _, s, hsmem, hs⟩ :=
    computeTokenPrice_ok_mem hok he
  obtain ⟨pf, hpf, _, _, he'⟩ := computeSignerTrade_ok_some hs
  subst he'
  refine ⟨s, hsmem, preB, postB, pf, h3, h4, hpf, rfl, ?_, ?_, ?_, ?_⟩
  · dsimp only
    push_cast
    ring
  · intro hnil
    rcases priorityFeeOf_ok hpf with ⟨_, hz⟩ | ⟨hne', _⟩
    · exact hz
    · exact absurd hnil hne'
  · intro micro hmic hne'
    rcases priorityFeeOf_ok hpf with ⟨hnil, _⟩ | ⟨_, micro', hmic', hpf'⟩
    · exact absurd hnil hne'
    · rw [hmic'] at hmic
      have hmm := Except.ok.inj hmic
      subst hmm
      exact hpf'
  · intro micro hmic
    exact microLamportsFold_source (computeBudgetInstructionsOf tx) 0 micro hmic

/-- Evaluation of the pipeline core on `txBuy`. -/
theorem computeTokenPrice_txBuy :
    computeTokenPrice txBuy "M" = Except.ok (some [tradeBuy]) := by
  norm_num [computeTokenPrice, txBuy, signersOf, List.enum, List.enumFrom, foldTrades,
    computeSignerTrade, tokenBalanceLookup, List.find?, priorityFeeOf,
    computeBudgetInstructionsOf, computeBudgetProgramId, decodeInstructionType,
    decodeSetComputeUnitPrice, leBytesToNat, microLamportsFold, LAMPORTS_PER_SOL, tradeBuy,
    ParsedTokenHistory.mk.injEq, abs_of_pos]

/-- C3 witness: `txBuy` declares 10000 micro-lamports over 200000 consumed
units, a priority fee of 2000 lamports added back with the 5000-lamport base
fee. -/
theorem native_balances_and_priority_fee_witness :
    ∃ s ∈ signersOf txBuy, ∃ preB postB pf,
      txBuy.meta.bind TransactionMeta.preBalances = some preB ∧
      txBuy.meta.bind TransactionMeta.postBalances = some postB ∧
      priorityFeeOf txBuy = Except.ok pf ∧
      tradeBuy.preSolBalance = (preB.getD s.1 0 : ℚ) / LAMPORTS_PER_SOL ∧
      tradeBuy.postSolBalance = ((postB.getD s.1 0 : ℚ) +
          ((txBuy.meta.bind TransactionMeta.fee).getD 0 : ℚ) + (pf : ℚ)) / LAMPORTS_PER_SOL ∧
      (computeBudgetInstructionsOf txBuy = [] → pf = 0) ∧
      (∀ micro, microLamportsFold (computeBudgetInstructionsOf txBuy) 0 = Except.ok micro →
          computeBudgetInstructionsOf txBuy ≠ [] →
          pf = (txBuy.meta.bind TransactionMeta.computeUnitsConsumed).getD 0 * micro / 1000000) ∧
      (∀ micro, microLamportsFold (computeBudgetInstructionsOf txBuy) 0 = Except.ok micro →
          (micro = 0 ∧ ∀ ins ∈ computeBudgetInstructionsOf txBuy,
              decodeInstructionType ins.data ≠ Except.ok "SetComputeUnitPrice") ∨
          (∃ ins ∈ computeBudgetInstructionsOf txBuy,
              decodeInstructionType ins.data = Except.ok "SetComputeUnitPrice" ∧
              decodeSetComputeUnitPrice ins.data = Except.ok micro)) :=
  native_balances_and_priority_fee txBuy "M" [tradeBuy] tradeBuy computeTokenPrice_txBuy
    (List.mem_singleton.mpr rfl)

/-- The retry loop makes at most `fuel` further provider calls. -/
theorem retryGo_attempts_le (provider : Nat → FetchAttempt) :
    ∀ (fuel attempt : Nat), (retryGo provider attempt fuel).attempts ≤ attempt + fuel := by
  intro fuel
  induction fuel with
  | zero => intro attempt; simp [retryGo]
  | succ n ih =>
    intro attempt
    cases hp : provider attempt with
    | ok resp => simp [retryGo, hp]
    | err msg =>
      simp only [retryGo, hp]
      have := ih (attempt + 1)
      omega

/-- Every backoff recorded by the retry loop is the fixed 1000 ms delay. -/
theorem retryGo_sleeps (provider : Nat → FetchAttempt) :
    ∀ (fuel attempt : Nat), ∀ d ∈ (retryGo provider attempt fuel).sleeps, d = 1000 := by
  intro fuel
  induction fuel with
  | zero => intro attempt d hd; simp [retryGo] at hd
  | succ n ih =>
    intro attempt d hd
    cases hp : provider attempt with
    | ok resp => simp [retryGo, hp] at hd
    | err msg =>
      simp only [retryGo, hp, List.mem_cons] at hd
      rcases hd with rfl | hd
      · rfl
      · exact ih (attempt + 1) d hd

/-- The transactions returned by the retry loop are empty or the non-null
entries of one successful provider response within the attempt window. -/
theorem retryGo_transactions_shape (provider : Nat → FetchAttempt) :
    ∀ (fuel attempt : Nat),
      (retryGo provider attempt fuel).transactions = [] ∨
      ∃ i resp, attempt ≤ i ∧ i < attempt + fuel ∧ provider i = FetchAttempt.ok resp ∧
        (retryGo provider attempt fuel).transactions = resp.filterMap id := by
  intro fuel
  induction fuel with
  | zero => intro attempt; simp [retryGo]
  | succ n ih =>
    intro attempt
    cases hp : provider attempt with
    | ok resp =>
      refine Or.inr ⟨attempt, resp, le_refl _, by omega, hp, ?_⟩
      simp [retryGo, hp]
    | err msg =>
      rcases ih (attempt + 1) with h | ⟨i, resp, h1, h2, h3, h4⟩
      · exact Or.inl (by simp [retryGo, hp, h])
      · refine Or.inr ⟨i, resp, by omega, by omega, h3, ?_⟩
        simp [retryGo, hp, h4]

/-- When every attempt in the window fails, the retry loop returns no
transactions and uses the whole attempt budget. -/
theorem retryGo_all_err (provider : Nat → FetchAttempt) :
    ∀ (fuel attempt : Nat),
      (∀ i, attempt ≤ i → i < attempt + fuel → ∃ m, provider i = FetchAttempt.err m) →
      (retryGo provider attempt fuel).transactions = [] ∧
      (retryGo provider attempt fuel).attempts = attempt + fuel := by
  intro fuel
  induction fuel with
  | zero => intro attempt _; simp [retryGo]
  | succ n ih =>
    intro attempt hall
    obtain ⟨m, hm⟩ := hall attempt (le_refl _) (by omega)
    have := ih (attempt + 1) (fun i h1 h2 => hall i (by omega) (by omega))
    simp only [retryGo, hm]
    constructor
    · exact this.1
    · rw [this.2]; omega

/-- The first successful attempt determines the returned transactions. -/
theorem retryGo_first_ok (provider : Nat → FetchAttempt) :
    ∀ (fuel attempt i : Nat) (resp : List (Option ParsedTransactionWithMeta)),
      attempt ≤ i → i < attempt + fuel →
      provider i = FetchAttempt.ok resp →
      (∀ j, attempt ≤ j → j < i → ∃ m, provider j = FetchAttempt.err m) →
      (retryGo provider attempt fuel).transactions = resp.filterMap id := by
  intro fuel
  induction fuel with
  | zero => intro attempt i resp h1 h2 _ _; omega
  | succ n ih =>
    intro attempt i resp h1 h2 hok herr
    by_cases hi : i = attempt
    · subst hi
      simp [retryGo, hok]
    · obtain ⟨m, hm⟩ := herr attempt (le_refl _) (by omega)
      simp only [retryGo, hm]
      exact ih (attempt + 1) i resp (by omega) (by omega) hok
        (fun j hj1 hj2 => herr j (by omega) hj2)

/-- C4: for any batch of `n` signatures, the fetch makes at most 5 total
attempts with a fixed 1000 ms backoff after each failed one; if every
attempt errors it returns the empty sequence rather than an error; null
entries of a successful response are filtered out; and the result is never
longer than the batch. -/
theorem batch_fetch_bounded_retry (provider : Nat → FetchAttempt) (n : Nat)
    (hlen : ∀ i resp, provider i = FetchAttempt.ok resp → resp.length = n) :
    (getTransactionsWithRetries provider).attempts ≤ 5 ∧
    (getTransactionsWithRetries provider).transactions.length ≤ n ∧
    (∀ d ∈ (getTransactionsWithRetries provider).sleeps, d = 1000) ∧
    ((∀ i, i < 5 → ∃ m, provider i = FetchAttempt.err m) →
        (getTransactionsWithRetries provider).transactions = []) ∧
    (∀ i resp, i < 5 → provider i = FetchAttempt.ok resp →
        (∀ j, j < i → ∃ m, provider j = FetchAttempt.err m) →
        (getTransactionsWithRetries provider).transactions = resp.filterMap id) := by
  refine ⟨?_, ?_, ?_, ?_, ?_⟩
  · simpa using retryGo_attempts_le provider 5 0
  · rcases retryGo_transactions_shape provider 5 0 with h | ⟨i, resp, _, _, hok, htr⟩
    · simp [getTransactionsWithRetries, h]
    · simp only [getTransactionsWithRetries, htr]
      exact (List.length_filterMap_le _ _).trans (le_of_eq (hlen i resp hok))
  · exact fun d hd => retryGo_sleeps provider 5 0 d hd
  · intro h
    exact (retryGo_all_err provider 5 0 (fun i _ h2 => h i (by omega))).1
  · intro i resp h1 hok herr
    exact retryGo_first_ok provider 5 0 i resp (Nat.zero_le _) (by omega) hok
      (fun j _ hj2 => herr j hj2)

/-- C4 witness: a provider that fails every attempt, for a batch of two
signatures. -/
theorem batch_fetch_bounded_retry_witness :
    (getTransactionsWithRetries (fun _ => FetchAttempt.err "boom")).attempts ≤ 5 ∧
    (getTransactionsWithRetries (fun _ => FetchAttempt.err "boom")).transactions.length ≤ 2 ∧
    (∀ d ∈ (getTransactionsWithRetries (fun _ => FetchAttempt.err "boom")).sleeps, d = 1000) ∧
    ((∀ i, i < 5 → ∃ m,
        (fun (_ : Nat) => FetchAttempt.err "boom") i = FetchAttempt.err m) →
        (getTransactionsWithRetries (fun _ => FetchAttempt.err "boom")).transactions = []) ∧
    (∀ i resp, i < 5 → (fun (_ : Nat) => FetchAttempt.err "boom") i = FetchAttempt.ok resp →
        (∀ j, j < i → ∃ m,
            (fun (_ : Nat) => FetchAttempt.err "boom") j = FetchAttempt.err m) →
        (getTransactionsWithRetries (fun _ => FetchAttempt.err "boom")).transactions =
          resp.filterMap id) :=
  batch_fetch_bounded_retry (fun _ => FetchAttempt.err "boom") 2
    (fun _ _resp h => FetchAttempt.noConfusion h)

/-- The last element reported by `getLast?` is a member of the list. -/
theorem mem_of_getLast {α : Type} :
    ∀ (l : List α) (a : α), l.getLast? = some a → a ∈ l := by
  intro l
  induction l with
  | nil => intro a h; simp at h
  | cons x xs ih =>
    intro a h
    cases hxs : xs with
    | nil =>
      subst hxs
      simp only [List.getLast?_singleton, Option.some.injEq] at h
      simp [h]
    | cons y ys =>
      subst hxs
      rw [List.getLast?_cons_cons] at h
      exact List.mem_cons_of_mem _ (ih a h)

/-- In a strictly rank-descending list, the last element has minimal rank. -/
theorem last_rank_min (rank : String → Nat) :
    ∀ (l : List ConfirmedSignatureInfo) (lastRec : ConfirmedSignatureInfo),
      l.Pairwise (fun a c => rank c.signature < rank a.signature) →
      l.getLast? = some lastRec →
      ∀ a ∈ l, rank lastRec.signature ≤ rank a.signature := by
  intro l
  induction l with
  | nil => intro lastRec _ h; simp at h
  | cons x xs ih =>
    intro lastRec hp hl a ha
    cases hxs : xs with
    | nil =>
      subst hxs
      simp only [List.getLast?_singleton, Option.some.injEq] at hl
      subst hl
      have := List.mem_singleton.mp ha
      subst this
      exact le_refl _
    | cons y ys =>
      subst hxs
      rw [List.getLast?_cons_cons] at hl
      have hlmem : lastRec ∈ y :: ys := mem_of_getLast _ _ hl
      rcases List.mem_cons.mp ha with rfl | hmem
      · exact le_of_lt ((List.pairwise_cons.mp hp).1 lastRec hlmem)
      · exact ih lastRec (List.pairwise_cons.mp hp).2 hl a hmem

/-- Walking from an empty page yields nothing. -/
theorem walkPages_nil (provider : Option String → List ConfirmedSignatureInfo) :
    ∀ fuel, walkPages provider [] fuel = [] := by
  intro fuel
  cases fuel <;> simp [walkPages]

/-- If every page is strictly rank-descending and honors its `before`
anchor, then the pages walked after any strictly-descending current page are
strictly descending and strictly older than everything in that page. -/
theorem walkPages_invariant (provider : Option String → List ConfirmedSignatureInfo)
    (rank : String → Nat)
    (hpage : ∀ b, (provider b).Pairwise (fun a c => rank c.signature < rank a.signature))
    (hbefore : ∀ s r, r ∈ provider (some s) → rank r.signature < rank s) :
    ∀ (fuel : Nat) (current : List ConfirmedSignatureInfo),
      current.Pairwise (fun a c => rank c.signature < rank a.signature) →
      (walkPages provider current fuel).Pairwise
        (fun a c => rank c.signature < rank a.signature) ∧
      ∀ r ∈ walkPages provider current fuel, ∀ a ∈ current,
        rank r.signature < rank a.signature := by
  intro fuel
  induction fuel with
  | zero => intro current _; simp [walkPages]
  | succ n ih =>
    intro current hcur
    cases hl : current.getLast? with
    | none => simp [walkPages, hl]
    | some lastRec =>
      simp only [walkPages, hl]
      obtain ⟨ihp, ihlt⟩ := ih (provider (some lastRec.signature)) (hpage _)
      constructor
      · rw [List.pairwise_append]
        exact ⟨hpage _, ihp, fun a hanext b hbwalk => ihlt b hbwalk a hanext⟩
      · intro r hr a ha
        rcases List.mem_append.mp hr with hrnext | hrwalk
        · exact lt_of_lt_of_le (hbefore _ _ hrnext)
            (last_rank_min rank current lastRec hcur hl a ha)
        · cases hne : provider (some lastRec.signature) with
          | nil =>
            rw [hne, walkPages_nil] at hrwalk
            simp at hrwalk
          | cons p ps =>
            have hpmem : p ∈ provider (some lastRec.signature) := by
              rw [hne]; exact List.mem_cons_self p ps
            have h1 : rank r.signature < rank p.signature := ihlt r hrwalk p hpmem
            have h2 : rank p.signature < rank lastRec.signature := hbefore _ p hpmem
            exact lt_of_lt_of_le (lt_trans h1 h2)
              (last_rank_min rank current lastRec hcur hl a ha)

/-- Every record the walker accumulates comes from some provider page. -/
theorem walkPages_mem_provider (provider : Option String → List ConfirmedSignatureInfo) :
    ∀ (fuel : Nat) (current : List ConfirmedSignatureInfo) (r : ConfirmedSignatureInfo),
      r ∈ walkPages provider current fuel → ∃ b, r ∈ provider b := by
  intro fuel
  induction fuel with
  | zero => intro current r hr; simp [walkPages] at hr
  | succ n ih =>
    intro current r hr
    cases hl : current.getLast? with
    | none => rw [walkPages, hl] at hr; simp at hr
    | some lastRec =>
      simp only [walkPages, hl] at hr
      rcases List.mem_append.mp hr with h | h
      · exact ⟨some lastRec.signature, h⟩
      · exact ih _ r h

/-- C5: assuming the provider returns strictly newest-first pages, honors
the `before` anchor, and honors the `until` cursor bound, the records the
walker forwards to batching are strictly ordered newest-to-oldest, have no
duplicates, are all strictly newer than the cursor, all carry a null error
flag, and number at most 5000. -/
theorem walker_forwarded_records (provider : Option String → List ConfirmedSignatureInfo)
    (fuel : Nat) (rank : String → Nat) (cursorRank : Nat)
    (hpage : ∀ b, (provider b).Pairwise (fun a c => rank c.signature < rank a.signature))
    (hbefore : ∀ s r, r ∈ provider (some s) → rank r.signature < rank s)
    (huntil : ∀ b r, r ∈ provider b → cursorRank < rank r.signature) :
    (successfullTransactions (getAllTransactionsUntilLastSignature provider fuel)).Pairwise
        (fun a c => rank c.signature < rank a.signature) ∧
    (successfullTransactions (getAllTransactionsUntilLastSignature provider fuel)).Nodup ∧
    (∀ r ∈ successfullTransactions (getAllTransactionsUntilLastSignature provider fuel),
        cursorRank < rank r.signature) ∧
    (∀ r ∈ successfullTransactions (getAllTransactionsUntilLastSignature provider fuel),
        r.err = none) ∧
    (successfullTransactions (getAllTransactionsUntilLastSignature provider fuel)).length
        ≤ 5000 := by
  have hall : (getAllTransactionsUntilLastSignature provider fuel).Pairwise
      (fun a c => rank c.signature < rank a.signature) := by
    unfold getAllTransactionsUntilLastSignature
    rw [List.pairwise_append]
    obtain ⟨ihp, ihlt⟩ := walkPages_invariant provider rank hpage hbefore fuel
      (provider none) (hpage none)
    exact ⟨hpage none, ihp, fun a ha b hb => ihlt b hb a ha⟩
  have hmemprov : ∀ r ∈ getAllTransactionsUntilLastSignature provider fuel,
      ∃ b, r ∈ provider b := by
    unfold getAllTransactionsUntilLastSignature
    intro r hr
    rcases List.mem_append.mp hr with h | h
    · exact ⟨none, h⟩
    · exact walkPages_mem_provider provider fuel _ r h
  have hsub : List.Sublist
      (successfullTransactions (getAllTransactionsUntilLastSignature provider fuel))
      (getAllTransactionsUntilLastSignature provider fuel) := by
    unfold successfullTransactions
    exact (List.filter_sublist _).trans (List.take_sublist _ _)
  have hF : (successfullTransactions (getAllTransactionsUntilLastSignature provider fuel)).Pairwise
      (fun a c => rank c.signature < rank a.signature) := hall.sublist hsub
  refine ⟨hF, ?_, ?_, ?_, ?_⟩
  · exact hF.imp fun {a b} hab hEq => absurd hab (by rw [hEq]; exact lt_irrefl _)
  · intro r hr
    obtain ⟨b, hb⟩ := hmemprov r (hsub.subset hr)
    exact huntil b r hb
  · intro r hr
    unfold successfullTransactions at hr
    have := (List.mem_filter.mp hr).2
    simpa [Option.isNone_iff_eq_none] using this
  · unfold successfullTransactions
    exact (List.length_filter_le _ _).trans (List.length_take_le _ _)

/-- C5 witness: a one-page provider whose single record is successful and
strictly newer than the cursor. -/
theorem walker_forwarded_records_witness :
    (successfullTransactions (getAllTransactionsUntilLastSignature providerOnePage 1)).Pairwise
        (fun a c => rankOnePage c.signature < rankOnePage a.signature) ∧
    (successfullTransactions (getAllTransactionsUntilLastSignature providerOnePage 1)).Nodup ∧
    (∀ r ∈ successfullTransactions (getAllTransactionsUntilLastSignature providerOnePage 1),
        0 < rankOnePage r.signature) ∧
    (∀ r ∈ successfullTransactions (getAllTransactionsUntilLastSignature providerOnePage 1),
        r.err = none) ∧
    (successfullTransactions (getAllTransactionsUntilLastSignature providerOnePage 1)).length
        ≤ 5000 :=
  walker_forwarded_records providerOnePage 1 rankOnePage 0
    (by intro b; cases b <;> simp [providerOnePage])
    (by intro s r hr; simp [providerOnePage] at hr)
    (by
      intro b r hr
      cases b with
      | none =>
        simp only [providerOnePage, List.mem_singleton] at hr
        subst hr
        simp [rankOnePage]
      | some s => simp [providerOnePage] at hr)

/-- C6: venue resolution returns the first registry match when the registry
lists a pairing, and otherwise the program-derived fallback address built
from the bonding-curve namespace tag, the mint bytes, and the pump.fun
program id; the result depends only on the registry response and the
derivation functions, so it is the same on every call with the same
inputs. -/
theorem venue_resolution (env : ChainEnv) (mint : String) :
    (∀ pi p rest, env.fetchPoolByMints mint = Except.ok (some pi) → pi.data = p :: rest →
        getPoolInfo env mint = Except.ok p.id) ∧
    (∀ pi, env.fetchPoolByMints mint = Except.ok none ∨
        (env.fetchPoolByMints mint = Except.ok (some pi) ∧ pi.data = []) →
        getPoolInfo env mint = Except.ok
          (env.findProgramAddressSync [bondingCurveSeed, env.toBuffer mint] PUMPFUN_PROGRAM)) ∧
    (∀ env2 : ChainEnv, env2.fetchPoolByMints mint = env.fetchPoolByMints mint →
        env2.findProgramAddressSync = env.findProgramAddressSync →
        env2.toBuffer = env.toBuffer →
        getPoolInfo env2 mint = getPoolInfo env mint) := by
  refine ⟨?_, ?_, ?_⟩
  · intro pi p rest hfetch hdata
    simp [getPoolInfo, hfetch, hdata]
  · intro pi h
    rcases h with h | ⟨h, hdata⟩
    · simp [getPoolInfo, h]
    · simp [getPoolInfo, h, hdata]
  · intro env2 h1 h2 h3
    simp only [getPoolInfo, h1, h2, h3]

/-- C6 witness: a registry hit resolves to the listed pool, a registry miss
resolves to the derived fallback address. -/
theorem venue_resolution_witness :
    getPoolInfo envRegistryHit "M" = Except.ok "POOL1" ∧
    getPoolInfo envBadDecode "M2" = Except.ok
      (envBadDecode.findProgramAddressSync
        [bondingCurveSeed, envBadDecode.toBuffer "M2"] PUMPFUN_PROGRAM) :=
  ⟨(venue_resolution envRegistryHit "M").1 ⟨[⟨"POOL1"⟩]⟩ ⟨"POOL1"⟩ [] rfl rfl,
   (venue_resolution envBadDecode "M2").2.1 ⟨[]⟩ (Or.inl rfl)⟩

/-- C7 counterexample: a raised registry error is not treated as "no
listing" — `getPoolInfo` evaluates to that error, so venue resolution does
raise an error to its caller instead of falling back. -/
theorem registry_error_escapes_counterexample :
    getPoolInfo envRegistryError "MINT" = Except.error "network down" := rfl

/-- C7 amended: a registry response reporting no listing (a null response —
and likewise an empty listing) falls through to the deterministic fallback
without error, but an error raised by the registry lookup itself is not
caught: it propagates to the caller of `getPoolInfo`. -/
theorem registry_error_propagates (env : ChainEnv) (mint : String) :
    (∀ e, env.fetchPoolByMints mint = Except.error e →
        getPoolInfo env mint = Except.error e) ∧
    (env.fetchPoolByMints mint = Except.ok none →
        getPoolInfo env mint = Except.ok
          (env.findProgramAddressSync [bondingCurveSeed, env.toBuffer mint] PUMPFUN_PROGRAM)) := by
  constructor
  · intro e h
    simp [getPoolInfo, h]
  · intro h
    simp [getPoolInfo, h]

/-- C7 amended witness: the concrete failing registry of the counterexample
propagates its error on another mint as well. -/
theorem registry_error_propagates_witness :
    getPoolInfo envRegistryError "M2" = Except.error "network down" :=
  (registry_error_propagates envRegistryError "M2").1 "network down" rfl

/-- C8 counterexample: with a transaction whose compute-budget instruction
fails to decode, the per-transaction derivation raises, the error escapes
`getTokenPoolInfo`, and the whole sync run over two agents evaluates to the
error — the second agent (which alone would sync fine, yielding no rows) is
never processed. -/
theorem derivation_error_aborts_run_counterexample :
    syncAgentTransactionHistory envBadDecode (fun _ => none) [⟨1, "M1"⟩, ⟨2, "M2"⟩] =
      Except.error "Invalid instruction type" ∧
    syncAgentTransactionHistory envBadDecode (fun _ => none) [⟨2, "M2"⟩] = Except.ok [] := by
  constructor
  all_goals
    norm_num [syncAgentTransactionHistory, syncAgents, getHistoricalTransactionData,
      getTokenPoolInfo, getPoolInfo, envBadDecode, getAllTransactionsUntilLastSignature,
      walkPages, successfullTransactions, chunk100, chunkGo, processTransactionBatch,
      getTransactionsWithRetries, retryGo, foldBatches, foldTxs, computeTokenPrice, signersOf,
      List.enum, List.enumFrom, foldTrades, computeSignerTrade, tokenBalanceLookup, List.find?,
      priorityFeeOf, computeBudgetInstructionsOf, computeBudgetProgramId, microLamportsFold,
      decodeInstructionType, txBadInstruction]
  all_goals simp

/-- C8 amended: an exception raised during per-transaction price derivation
is not contained — it aborts the batch loop of its asset and the whole sync
run, skipping the remaining agents; only batch-fetch failures are contained
by the retry loop, which degrades an always-failing batch to an empty
result. -/
theorem derivation_error_aborts_run (env : ChainEnv) (getLS : Nat → Option String)
    (a : AgentRec) (rest : List AgentRec) (e : String) :
    (getTokenPoolInfo env a.mint (getLS a.id) = Except.error e →
        syncAgentTransactionHistory env getLS (a :: rest) = Except.error e) ∧
    (∀ provider mint, (∀ i, ∃ m, provider i = FetchAttempt.err m) →
        processTransactionBatch provider mint = Except.ok []) ∧
    (∀ mint lastSig pool b bs,
        getPoolInfo env mint = Except.ok pool →
        chunk100 (successfullTransactions (getAllTransactionsUntilLastSignature
          (env.sigPages pool lastSig) env.walkFuel)) = b :: bs →
        processTransactionBatch (env.txFetch (b.map ConfirmedSignatureInfo.signature)) mint =
          Except.error e →
        getTokenPoolInfo env mint lastSig = Except.error e) := by
  refine ⟨?_, ?_, ?_⟩
  · intro h
    simp [syncAgentTransactionHistory, syncAgents, getHistoricalTransactionData, h]
  · intro provider mint hall
    have htr : (getTransactionsWithRetries provider).transactions = [] :=
      (retryGo_all_err provider 5 0 (fun i _ _ => hall i)).1
    simp [processTransactionBatch, htr, foldTxs]
  · intro mint lastSig pool b bs hpool hchunk hb
    simp only [getTokenPoolInfo, hpool]
    rw [hchunk]
    simp [foldBatches, hb]

/-- C8 amended witness: the bad-decode environment of the counterexample
satisfies both halves — the asset-level abort and the retry containment. -/
theorem derivation_error_aborts_run_witness :
    syncAgentTransactionHistory envBadDecode (fun _ => none) [⟨1, "M1"⟩, ⟨3, "M3"⟩] =
      Except.error "Invalid instruction type" ∧
    processTransactionBatch (fun _ => FetchAttempt.err "boom") "M" = Except.ok [] :=
  ⟨(derivation_error_aborts_run envBadDecode (fun _ => none) ⟨1, "M1"⟩ [⟨3, "M3"⟩]
      "Invalid instruction type").1
      (by
        norm_num [getTokenPoolInfo, getPoolInfo, envBadDecode,
          getAllTransactionsUntilLastSignature, walkPages, successfullTransactions, chunk100,
          chunkGo, processTransactionBatch, getTransactionsWithRetries, retryGo, foldBatches,
          foldTxs, computeTokenPrice, signersOf, List.enum, List.enumFrom, foldTrades,
          computeSignerTrade, tokenBalanceLookup, List.find?, priorityFeeOf,
          computeBudgetInstructionsOf, computeBudgetProgramId, microLamportsFold,
          decodeInstructionType, txBadInstruction]),
   (derivation_error_aborts_run envBadDecode (fun _ => none) ⟨1, "M1"⟩ [] "x").2.1
      (fun _ => FetchAttempt.err "boom") "M" (fun _ => ⟨"boom", rfl⟩)⟩

/-- Membership after time-ordered insertion. -/
theorem mem_insertByTime (x : HistoricPrice) :
    ∀ (l : List HistoricPrice) (y : HistoricPrice), y ∈ insertByTime x l → y = x ∨ y ∈ l := by
  intro l
  induction l with
  | nil =>
    intro y hy
    simp only [insertByTime, List.mem_singleton] at hy
    exact Or.inl hy
  | cons z zs ih =>
    intro y hy
    simp only [insertByTime] at hy
    split at hy
    · rcases List.mem_cons.mp hy with rfl | h
      · exact Or.inl rfl
      · exact Or.inr h
    · rcases List.mem_cons.mp hy with rfl | h
      · exact Or.inr (List.mem_cons_self _ _)
      · rcases ih y h with h' | h'
        · exact Or.inl h'
        · exact Or.inr (List.mem_cons_of_mem _ h')

/-- Time-ordered insertion preserves ascending order. -/
theorem insertByTime_sorted (x : HistoricPrice) :
    ∀ (l : List HistoricPrice), l.Pairwise (fun a b => a.time ≤ b.time) →
      (insertByTime x l).Pairwise (fun a b => a.time ≤ b.time) := by
  intro l
  induction l with
  | nil => intro _; simp [insertByTime]
  | cons y ys ih =>
    intro hp
    simp only [insertByTime]
    split
    · rename_i hle
      refine List.pairwise_cons.mpr ⟨?_, hp⟩
      intro b hb
      rcases List.mem_cons.mp hb with rfl | hmem
      · exact hle
      · exact le_trans hle ((List.pairwise_cons.mp hp).1 b hmem)
    · rename_i hgt
      push_neg at hgt
      refine List.pairwise_cons.mpr ⟨?_, ih (List.pairwise_cons.mp hp).2⟩
      intro b hb
      rcases mem_insertByTime x ys b hb with rfl | hmem
      · exact le_of_lt hgt
      · exact (List.pairwise_cons.mp hp).1 b hmem

/-- The comparator sort of the expanded-history path sorts ascending by
time. -/
theorem sortByTime_sorted :
    ∀ (l : List HistoricPrice), (sortByTime l).Pairwise (fun a b => a.time ≤ b.time) := by
  intro l
  induction l with
  | nil => simp [sortByTime]
  | cons x xs ih => exact insertByTime_sorted x (sortByTime xs) ih

/-- C9 counterexample: on rows whose first-encounter block-time order is 2
then 1, the returned history is the ascending sequence, not the unsorted
aggregated sequence the claim says is returned. -/
theorem unsorted_history_returned_counterexample :
    getAgentResponseHistory rowsOutOfOrder ≠ specUnsortedHistory rowsOutOfOrder ∧
    getAgentResponseHistory rowsOutOfOrder = [⟨1, 3⟩, ⟨2, 5⟩] ∧
    specUnsortedHistory rowsOutOfOrder = [⟨2, 5⟩, ⟨1, 3⟩] := by
  refine ⟨?_, ?_, ?_⟩ <;>
    norm_num [getAgentResponseHistory, specUnsortedHistory, flattendHistory, firstOccurrences,
      sortNatAsc, insertNatAsc, sortByTime, insertByTime, sumPricesAt, rowsOutOfOrder,
      HistoricPrice.mk.injEq]

/-- C9 amended: JS `Array.prototype.sort` sorts the aggregated array in
place and the second assignment re-assigns that same, now sorted, array —
so the history returned on the expanded path is in ascending time order for
every input. -/
theorem expanded_history_sorted (rows : List PriceHistoryRow) :
    (getAgentResponseHistory rows).Pairwise (fun a b => a.time ≤ b.time) :=
  sortByTime_sorted (flattendHistory rows)

/-- Filtering a replicated list whose element satisfies the predicate is the
identity. -/
theorem filter_replicate_of_pos {α : Type} (p : α → Bool) (a : α) (h : p a = true) :
    ∀ n, (List.replicate n a).filter p = List.replicate n a := by
  intro n
  induction n with
  | zero => simp
  | succ m ih => simp [List.replicate_succ, h, ih]

/-- A head rejected by the predicate drops out of the filter. -/
theorem filter_cons_false {α : Type} (p : α → Bool) (a : α) (l : List α) (h : p a = false) :
    (a :: l).filter p = l.filter p := by
  simp [List.filter_cons, h]

/-- C10: the 5000-record ceiling applies to the raw signature history
before the success filter — every forwarded record is a successful record
among the first 5000 raw ones and at most 5000 are forwarded, yet a history
holding more than 5000 successful records can forward fewer than 5000,
because failed records consume ceiling slots. -/
theorem cap_before_success_filter :
    (∀ h : List ConfirmedSignatureInfo,
        (successfullTransactions h).length ≤ 5000 ∧
        ∀ t ∈ successfullTransactions h, t ∈ h.take 5000 ∧ t.err = none) ∧
    (∃ h : List ConfirmedSignatureInfo,
        5000 < (h.filter (fun t => t.err.isNone)).length ∧
        (successfullTransactions h).length < 5000) := by
  constructor
  · intro h
    refine ⟨(List.length_filter_le _ _).trans (List.length_take_le _ _), ?_⟩
    intro t ht
    have hm := List.mem_filter.mp ht
    exact ⟨hm.1, by simpa [Option.isNone_iff_eq_none] using hm.2⟩
  · refine ⟨historyOverCap, ?_, ?_⟩
    · have hrepl := filter_replicate_of_pos (fun t : ConfirmedSignatureInfo => t.err.isNone)
        ⟨"S", none, 1⟩ rfl 5001
      rw [historyOverCap, filter_cons_false _ _ _ rfl, hrepl, List.length_replicate]
      norm_num
    · have hrepl := filter_replicate_of_pos (fun t : ConfirmedSignatureInfo => t.err.isNone)
        ⟨"S", none, 1⟩ rfl 4999
      have hmin : min (4999 : Nat) 5001 = 4999 := by
        rw [Nat.min_def]
        norm_num
      simp only [successfullTransactions, historyOverCap]
      rw [List.take_succ_cons, List.take_replicate, hmin, filter_cons_false _ _ _ rfl, hrepl,
        List.length_replicate]
      norm_num

/-- C10 witness: a single successful record passes the cap and the filter. -/
theorem cap_before_success_filter_witness :
    (successfullTransactions [⟨"A", none, 1⟩]).length ≤ 5000 ∧
    (⟨"A", none, 1⟩ : ConfirmedSignatureInfo) ∈
      [(⟨"A", none, 1⟩ : ConfirmedSignatureInfo)].take 5000 ∧
    (⟨"A", none, 1⟩ : ConfirmedSignatureInfo).err = none :=
  ⟨(cap_before_success_filter.1 [⟨"A", none, 1⟩]).1,
   (cap_before_success_filter.1 [⟨"A", none, 1⟩]).2 ⟨"A", none, 1⟩ (by decide)⟩

end Cubie
